import Mathlib

/-!
Verification of the RBC statement-parsing core of `src/scripts/parse_trades.py`:
the line classifier, alias-table builder, activity state machine, symbol
resolver, FX normalizer and statement driver are shallowly embedded below.
Python `float` values are modelled as exact rationals (`ℚ`); Python dicts with
`setdefault` are modelled as insertion-ordered association lists; the regular
expressions of the source are embedded as direct recognizers of the languages
they denote (each recognizer's doc comment names the regex it embeds).
File paths, PDF extraction and printing are out of scope: page texts arrive as
`List String`, directory listings as `List String`, and `print` diagnostics are
returned as a list of log lines.
-/

namespace NetWorth

/-- ASCII whitespace recognized by Python's default `str.split` / `str.strip`. -/
def isWsChar (c : Char) : Bool :=
  c = ' ' ∨ c = '\t' ∨ c = '\n' ∨ c = '\r' ∨ c = '\x0b' ∨ c = '\x0c'

/-- Characters counting as word characters for the regex `\b` boundary. -/
def isWordChar (c : Char) : Bool :=
  c.isAlpha ∨ c.isDigit ∨ c = '_'

/-- Uppercase ASCII letter. -/
def isUpperAZ (c : Char) : Bool := 'A' ≤ c ∧ c ≤ 'Z'

/-- Strip leading whitespace (Python `lstrip`). -/
def stripL (cs : List Char) : List Char := cs.dropWhile isWsChar

/-- Strip trailing whitespace (Python `rstrip`). -/
def stripR (cs : List Char) : List Char := (cs.reverse.dropWhile isWsChar).reverse

/-- Strip both ends (Python `strip`). -/
def stripWS (cs : List Char) : List Char := stripR (stripL cs)

/-- Helper for `runsBy`: `inRun` tells whether the previous character was in a
run (so that only maximal runs are started). -/
def runsByAux (p : Char → Bool) : List Char → Bool → List (List Char)
  | [], _ => []
  | c :: rest, inRun =>
    if p c then
      if inRun then runsByAux p rest true
      else (c :: rest.takeWhile p) :: runsByAux p rest true
    else runsByAux p rest false

/-- Maximal runs of characters satisfying `p`, in order (re.findall of `p+`). -/
def runsBy (p : Char → Bool) (cs : List Char) : List (List Char) :=
  runsByAux p cs false

/-- Substring test (Python `needle in hay`). -/
def containsList (hay needle : List Char) : Bool :=
  hay.tails.any (fun t => needle.isPrefixOf t)

/-- Substring test on strings. -/
def containsStr (hay needle : String) : Bool := containsList hay.data needle.data

/-- Uppercase a string (Python `str.upper`, ASCII fragment). -/
def upperStr (s : String) : String := String.mk (s.data.map Char.toUpper)

/-- Python `str.strip()` on strings. -/
def stripStr (s : String) : String := String.mk (stripWS s.data)

/-- Prefix test on strings (Python `str.startswith`). -/
def strStartsWith (s pre : String) : Bool := pre.data.isPrefixOf s.data

/-- Suffix test on strings (Python `str.endswith`). -/
def strEndsWith (s suf : String) : Bool := suf.data.isSuffixOf s.data

/-- Take the first `n` characters of a string. -/
def strTake (s : String) (n : ℕ) : String := String.mk (s.data.take n)

/-- Drop the first `n` characters of a string (Python `s[n:]`). -/
def strDrop (s : String) (n : ℕ) : String := String.mk (s.data.drop n)

/-- Split into maximal whitespace-separated words (Python `str.split()`). -/
def splitTokens (s : String) : List String :=
  (runsBy (fun c => !isWsChar c) s.data).map String.mk

/-- Python `" ".join`. -/
def joinSpace : List String → String
  | [] => ""
  | [s] => s
  | s :: rest => s ++ " " ++ joinSpace rest

/-- `normalize_space`: `" ".join((text or "").strip().split())`. -/
def normalize_space (s : String) : String := joinSpace (splitTokens s)

/-- `compact_key`: `re.sub(r"[^A-Z0-9]+", "", text.upper())`. -/
def compact_key (s : String) : String :=
  String.mk ((s.data.map Char.toUpper).filter (fun c => isUpperAZ c ∨ c.isDigit))

/-- `token_key_set`: `set(re.findall(r"[A-Z0-9]+", text.upper()))`, as a
deduplicated list (first occurrences kept) standing for the Python set. -/
def token_key_set (s : String) : List String :=
  ((runsBy (fun c => isUpperAZ c ∨ c.isDigit) (s.data.map Char.toUpper)).map String.mk).dedup

/-- Numeric value of a list of decimal digit characters. -/
def digitsVal (ds : List Char) : ℕ :=
  ds.foldl (fun a c => a * 10 + (c.toNat - 48)) 0

/-- Unsigned body of a Python `float` literal: `digits [. digits?] | . digits`
(exponents, `inf` and `nan` do not occur in statement fields and are not
modelled). Returns the exact rational value. -/
def parseUnsignedBody (cs : List Char) : Option ℚ :=
  if cs.takeWhile Char.isDigit ≠ [] then
    match cs.dropWhile Char.isDigit with
    | [] => some (mkRat (digitsVal (cs.takeWhile Char.isDigit)) 1)
    | '.' :: fr =>
      if fr.all Char.isDigit then
        some (mkRat (digitsVal (cs.takeWhile Char.isDigit) * 10 ^ fr.length + digitsVal fr)
          (10 ^ fr.length))
      else none
    | _ => none
  else
    match cs.dropWhile Char.isDigit with
    | '.' :: fr =>
      if fr ≠ [] ∧ fr.all Char.isDigit then
        some (mkRat (digitsVal fr) (10 ^ fr.length))
      else none
    | _ => none

/-- Sign handling of Python `float`: an optional single leading sign before
the unsigned body. -/
def pyFloatSigned : List Char → Option ℚ
  | [] => none
  | c :: r =>
    if c = '-' then (parseUnsignedBody r).map (fun q => -q)
    else if c = '+' then parseUnsignedBody r
    else parseUnsignedBody (c :: r)

/-- Python `float(s)` on the modelled grammar: surrounding whitespace is
stripped, then an optional sign and the unsigned body (exponents, `inf` and
`nan` do not occur in statement fields and are not modelled). -/
def pyFloatList (cs : List Char) : Option ℚ := pyFloatSigned (stripWS cs)

/-- Python `float` on strings. -/
def pyFloatStr (s : String) : Option ℚ := pyFloatList s.data

/-- Cleaning step of `parse_number`: remove all `$` and `,`, then strip
surrounding whitespace. -/
def pyCleanChars (s : String) : List Char :=
  stripWS ((s.data.filter (fun c => c ≠ '$')).filter (fun c => c ≠ ','))

/-- `parse_number`: clean, turn a trailing accounting-style minus into a
leading one, then `float`; `None` on failure. -/
def parse_number (s : String) : Option ℚ :=
  if (pyCleanChars s).getLast? = some '-' then
    pyFloatList ('-' :: (pyCleanChars s).dropLast)
  else
    pyFloatList (pyCleanChars s)

/-- Recognizer of one numeric field of the source's amount regexes:
`[0-9][0-9,]*(?:\.\d+)?-?` (the trailing `-` only when `allowMinus`). -/
def isNumField (allowMinus : Bool) (cs : List Char) : Bool :=
  match cs with
  | [] => false
  | c :: rest =>
    c.isDigit &&
      (match rest.dropWhile (fun ch => ch.isDigit ∨ ch = ',') with
       | [] => true
       | '.' :: fr =>
         let ds := fr.takeWhile Char.isDigit
         decide (ds ≠ []) &&
           (match fr.drop ds.length with
            | [] => true
            | ['-'] => allowMinus
            | _ => false)
       | ['-'] => allowMinus
       | _ => false)

/-- `RBC_AMOUNT_LINE_RE`: a line that is exactly three whitespace-separated
numeric fields (each `[0-9][0-9,]*(?:\.\d+)?-?`); returns the three fields. -/
def rbcAmountLine (line : String) : Option (String × String × String) :=
  match splitTokens line with
  | [a, b, c] =>
    if isNumField true a.data ∧ isNumField true b.data ∧ isNumField true c.data then
      some (a, b, c)
    else none
  | _ => none

/-- `RBC_INLINE_AMOUNT_RE`: `^(.*?)\s+(num)\s+(num)\s+(num)$` — at least four
tokens with the last three numeric; returns (group 1, group 4): the leading
text and the third numeric field. -/
def rbcInlineAmount (line : String) : Option (String × String) :=
  if 4 ≤ (splitTokens line).length ∧
      (((splitTokens line).drop ((splitTokens line).length - 3)).all
        (fun t => isNumField true t.data)) then
    match ((splitTokens line).drop ((splitTokens line).length - 3)).getLast? with
    | some last => some (joinSpace ((splitTokens line).take ((splitTokens line).length - 3)), last)
    | none => none
  else none

/-- Shape of the symbol token of `RBC_ASSET_LINE_RE`: `[A-Z][A-Z0-9.\-]{1,12}`. -/
def isSymbolToken (cs : List Char) : Bool :=
  match cs with
  | c :: rest =>
    isUpperAZ c ∧ 1 ≤ rest.length ∧ rest.length ≤ 12 ∧
      rest.all (fun ch => isUpperAZ ch ∨ ch.isDigit ∨ ch = '.' ∨ ch = '-')
  | [] => false

/-- Dollar-prefixed numeric field `\$([0-9][0-9,]*(?:\.\d+)?)` as a whole token. -/
def isDollarNum (cs : List Char) : Bool :=
  match cs with
  | '$' :: rest => isNumField false rest
  | _ => false

/-- `RBC_ASSET_LINE_RE`:
`^(.*?)\s+([A-Z][A-Z0-9.\-]{1,12})\s+num\s+num\s+num\s+\$num$` — a nonempty
description, a symbol token, three unsigned numeric fields and a
dollar-prefixed value; returns (description, symbol). -/
def rbcAssetLine (line : String) : Option (String × String) :=
  let ts := splitTokens line
  let n := ts.length
  if n < 6 then none
  else
    match ts.drop (n - 5) with
    | [sym, a, b, c, d] =>
      if isSymbolToken sym.data ∧ isNumField false a.data ∧ isNumField false b.data ∧
          isNumField false c.data ∧ isDollarNum d.data then
        some (joinSpace (ts.take (n - 5)), sym)
      else none
    | _ => none

/-- All matches of `re.findall(r"\((\d{3,5})\)", s)`: parenthesized runs of 3-5
digits, leftmost first (a digit run contains no `(`, so the char-by-char scan
finds exactly the regex's non-overlapping matches). -/
def parenCodesAux : List Char → List String
  | [] => []
  | c :: rest =>
    if c = '(' ∧ 3 ≤ (rest.takeWhile Char.isDigit).length ∧
        (rest.takeWhile Char.isDigit).length ≤ 5 ∧
        (rest.dropWhile Char.isDigit).head? = some ')' then
      String.mk (rest.takeWhile Char.isDigit) :: parenCodesAux rest
    else
      parenCodesAux rest

/-- Parenthesized 3-5 digit codes of a string. -/
def parenCodes (s : String) : List String := parenCodesAux s.data

/-- All matches of `re.findall(r"(?<!\d)(\d{3,5})(?!\d)", s)`: maximal digit
runs of length 3-5. -/
def freeCodes (s : String) : List String :=
  ((runsBy Char.isDigit s.data).filter (fun r => 3 ≤ r.length ∧ r.length ≤ 5)).map String.mk

/-- First match of `re.search(r"(\d{4})-(\d{2})-(\d{2})", ...)`. -/
def scanDateFragment : List Char → Option (ℕ × ℕ × ℕ)
  | [] => none
  | c :: rest =>
    match c :: rest with
    | a :: b :: c' :: d :: h1 :: e :: f :: h2 :: g :: h :: _ =>
      if [a, b, c', d, e, f, g, h].all Char.isDigit ∧ h1 = '-' ∧ h2 = '-' then
        some (digitsVal [a, b, c', d], digitsVal [e, f], digitsVal [g, h])
      else
        scanDateFragment rest
    | _ => scanDateFragment rest

/-- `extract_statement_year_month`: search the filename for a `YYYY-MM-DD`
fragment; `(None, None, None)` is modelled as `none`. -/
def extract_statement_year_month (name : String) : Option (ℕ × ℕ × ℕ) :=
  scanDateFragment name.data

/-- The literal head of `RBC_FX_RE` (`Exchange rate 1USD = ([0-9.]+) CAD`). -/
def fxLit : List Char := "Exchange rate 1USD = ".data

/-- Leftmost match of `RBC_FX_RE` in a page: the maximal `[0-9.]+` run after
the literal, which must be followed by `" CAD"`. -/
def rbcFxAux : List Char → Option String
  | [] => none
  | c :: rest =>
    (if fxLit.isPrefixOf (c :: rest) then
       let after := (c :: rest).drop fxLit.length
       let run := after.takeWhile (fun ch => ch.isDigit ∨ ch = '.')
       if run ≠ [] ∧ " CAD".data.isPrefixOf (after.drop run.length) then
         some (String.mk run)
       else none
     else none).orElse (fun _ => rbcFxAux rest)

/-- FX-rate search on a page string. -/
def rbcFxFind (page : String) : Option String := rbcFxAux page.data

/-- The month alternatives of `RBC_ACTIVITY_START_RE` in the regex engine's
backtracking order (each long form before its abbreviation). -/
def monthCandidates : List String :=
  ["JANUARY", "JAN", "FEBRUARY", "FEB", "MARCH", "MAR", "APRIL", "APR", "MAY",
   "JUNE", "JUN", "JULY", "JUL", "AUGUST", "AUG", "SEPTEMBER", "SEPT", "SEP",
   "OCTOBER", "OCT", "NOVEMBER", "NOV", "DECEMBER", "DEC"]

/-- After `([A-Z]+)\b\s*(.*)$`: maximal uppercase run, boundary, then the rest
of the line with its leading whitespace dropped. -/
def tryVerbRest (cs : List Char) : Option (String × String) :=
  let run := cs.takeWhile isUpperAZ
  if run = [] then none
  else
    match cs.drop run.length with
    | [] => some (String.mk run, "")
    | c :: rest2 =>
      if isWordChar c then none
      else some (String.mk run, String.mk ((c :: rest2).dropWhile isWsChar))

/-- `\s+` then `([A-Z]+)\b\s*(.*)$`. -/
def tryWsVerb (cs : List Char) : Option (String × String) :=
  match cs with
  | c :: rest => if isWsChar c then tryVerbRest (rest.dropWhile isWsChar) else none
  | [] => none

/-- `(\d{1,2})\s+([A-Z]+)\b\s*(.*)$`: two digits are tried before one. -/
def tryDigitsVerb (cs : List Char) : Option (String × String × String) :=
  match cs with
  | [] => none
  | d1 :: rest1 =>
    if d1.isDigit then
      let two :=
        match rest1 with
        | d2 :: rest2 =>
          if d2.isDigit then
            match tryWsVerb rest2 with
            | some (v, r) => some (String.mk [d1, d2], v, r)
            | none => none
          else none
        | [] => none
      match two with
      | some r => some r
      | none =>
        match tryWsVerb rest1 with
        | some (v, r) => some (String.mk [d1], v, r)
        | none => none
    else none

/-- `\s*` then digits/verb/rest (the part of the activity regex after the
optional dot). -/
def tryAfterMonth (cs : List Char) : Option (String × String × String) :=
  tryDigitsVerb (cs.dropWhile isWsChar)

/-- One attempt of `RBC_ACTIVITY_START_RE` at a fixed position: month
alternatives in order, `\.?` with the dot-consuming branch first. -/
def tryActivityAt (cs : List Char) : Option (String × String × String × String) :=
  monthCandidates.findSome? fun mon =>
    if mon.data.isPrefixOf cs then
      let after := cs.drop mon.length
      let withDot :=
        match after with
        | '.' :: r => tryAfterMonth r
        | _ => none
      match withDot with
      | some (d, v, r) => some (mon, d, v, r)
      | none =>
        match tryAfterMonth after with
        | some (d, v, r) => some (mon, d, v, r)
        | none => none
    else none

/-- Leftmost-first scan for `RBC_ACTIVITY_START_RE` with its `(?:^|\b)`
anchor; `ok` records whether the current position follows a non-word
character (or is the start of the string). -/
def rbcActivitySearchAux : Bool → List Char → Option (String × String × String × String)
  | _, [] => none
  | ok, c :: rest =>
    (if ok then tryActivityAt (c :: rest) else none).orElse
      (fun _ => rbcActivitySearchAux (!isWordChar c) rest)

/-- Combined `RBC_ACTIVITY_START_RE.match(line) or .search(line)` (the two
coincide with a plain leftmost search). -/
def rbcActivitySearch (line : String) : Option (String × String × String × String) :=
  rbcActivitySearchAux true line.data

/-- `MONTH_TO_NUMBER`. -/
def monthMap : List (String × ℕ) :=
  [("JAN", 1), ("FEB", 2), ("MAR", 3), ("APR", 4), ("MAY", 5), ("JUN", 6),
   ("JUL", 7), ("AUG", 8), ("SEP", 9), ("OCT", 10), ("NOV", 11), ("DEC", 12)]

/-- First-match lookup in an association list (insertion-ordered dict). -/
def lookupStr : List (String × String) → String → Option String
  | [], _ => none
  | (k, v) :: rest, q => if k = q then some v else lookupStr rest q

/-- Lookup in a `String → ℕ` association list. -/
def lookupNat : List (String × ℕ) → String → Option ℕ
  | [], _ => none
  | (k, v) :: rest, q => if k = q then some v else lookupNat rest q

/-- `month_token_to_number`: upper-case, strip trailing dots, map `SEPT*` to
`SEP`, otherwise truncate to three letters, then look up. -/
def month_token_to_number (token : String) : Option ℕ :=
  let t := String.mk ((upperStr token).data.reverse.dropWhile (fun c => c = '.')).reverse
  let t2 := if strStartsWith t "SEPT" then "SEP" else strTake t 3
  lookupNat monthMap t2

/-- Python `str.splitlines` restricted to `\n`, without a trailing empty
piece (other Unicode line boundaries do not occur in statement text). -/
def pySplitlines (s : String) : List String :=
  let parts := (s.data.splitOn '\n').map String.mk
  match parts.getLast? with
  | some "" => parts.dropLast
  | _ => parts

/-- `normalize_ticker_symbol`: strip/upper then legacy renames. -/
def normalize_ticker_symbol (ticker : String) : String :=
  let t := upperStr (stripStr ticker)
  if t = "GOOGL" then "GOOG"
  else if t = "BRKB" then "BRK-B"
  else t

/-- An insertion-ordered description-or-code to symbol mapping (Python dict). -/
abbrev AliasMap := List (String × String)

/-- The pair `(compact_to_symbol, code_to_symbol)`. -/
abbrev Tables := AliasMap × AliasMap

/-- Python `dict.setdefault`: insert at the end only when the key is absent. -/
def setdefault (t : AliasMap) (k v : String) : AliasMap :=
  if (lookupStr t k).isSome then t else t ++ [(k, v)]

/-- True when the string is nonempty and all characters are digits
(Python `str.isdigit` on the ASCII fragment). -/
def isDigitStr (s : String) : Bool := decide (s.data ≠ []) && s.data.all Char.isDigit

/-- One line of the alias collector: threads the per-page `in_asset_review`
flag and updates the two tables (`collect_rbc_asset_aliases` body). -/
def collectLine (t : Tables) (inR : Bool) (line : String) : Tables × Bool :=
  if line = "" then (t, inR)
  else if containsStr line "Asset Review" then (t, true)
  else if inR ∧ containsStr line "Account Activity" then (t, false)
  else if !inR then (t, inR)
  else
    match rbcAssetLine line with
    | none => (t, inR)
    | some (descRaw, symRaw) =>
      let desc := normalize_space descRaw
      let symbol := normalize_ticker_symbol (upperStr symRaw)
      let key := compact_key desc
      let ct := if key ≠ "" then setdefault t.1 key symbol else t.1
      let cs :=
        match (parenCodes desc).head? with
        | some code => setdefault t.2 code symbol
        | none => t.2
      let cs :=
        if strStartsWith symbol "RBF" ∧ isDigitStr (strDrop symbol 3) then
          setdefault cs (strDrop symbol 3) symbol
        else cs
      let cs :=
        if strStartsWith symbol "FID" ∧ isDigitStr (strDrop symbol 3) then
          setdefault cs (strDrop symbol 3) symbol
        else cs
      ((ct, cs), true)

/-- Fold the alias collector over the normalized lines of one page. -/
def collectLines : List String → Tables → Bool → Tables
  | [], t, _ => t
  | l :: rest, t, inR =>
    let p := collectLine t inR l
    collectLines rest p.1 p.2

/-- One page of `collect_rbc_asset_aliases`: the `in_asset_review` flag is
(re)initialized to `false` at the top of every page. -/
def collectPage (t : Tables) (page : String) : Tables :=
  collectLines ((pySplitlines page).map normalize_space) t false

/-- `collect_rbc_asset_aliases`: scan all pages, mutating the two tables. -/
def collect_rbc_asset_aliases (pages : List String) (t : Tables) : Tables :=
  pages.foldl collectPage t

/-- First code of a list that is a key of `code_to_symbol`
(the `for match in re.findall(...): if match in code_to_symbol` loops). -/
def firstHit (cs : AliasMap) : List String → Option String
  | [] => none
  | c :: rest =>
    match lookupStr cs c with
    | some s => some s
    | none => firstHit cs rest

/-- Normalized upper-case description used by the resolver. -/
def rbcUpperDesc (d : String) : String := upperStr (normalize_space d)

/-- The parenthesized-code pass of the resolver. -/
def rbcParenHit (u : String) (cs : AliasMap) : Option String := firstHit cs (parenCodes u)

/-- The free-standing-code pass of the resolver. -/
def rbcFreeHit (u : String) (cs : AliasMap) : Option String := firstHit cs (freeCodes u)

/-- Candidate scoring loop of `resolve_rbc_symbol`: containment of one
normalized string in the other scores `min(len(key), len(query))`; sharing at
least two uppercase alphanumeric tokens scores `100 * overlap + min-length`.
Entries are kept in table (iteration) order. -/
def rbcCandidates (cd : String) (dts : List String) : AliasMap → List (ℕ × String)
  | [] => []
  | (k, sym) :: rest =>
    if k = "" then rbcCandidates cd dts rest
    else if cd ≠ "" ∧ (containsStr k cd ∨ containsStr cd k) then
      (min k.length cd.length, sym) :: rbcCandidates cd dts rest
    else
      let overlap := ((token_key_set k).filter (fun tk => dts.contains tk)).length
      if 2 ≤ overlap then
        (overlap * 100 + min k.length cd.length, sym) :: rbcCandidates cd dts rest
      else rbcCandidates cd dts rest

/-- `candidates.sort(key=lambda x: x[0], reverse=True); candidates[0][1]`:
Python's sort is stable, so this is the first candidate attaining the maximal
score. -/
def bestCandAux : ℕ × String → List (ℕ × String) → ℕ × String
  | b, [] => b
  | b, c :: rest => bestCandAux (if b.1 < c.1 then c else b) rest

/-- Best-scoring candidate (first one on ties), `none` on an empty list. -/
def bestCandidate : List (ℕ × String) → Option String
  | [] => none
  | c :: rest => some (bestCandAux c rest).2

/-- Last-resort issuer fallback of `resolve_rbc_symbol`: a parenthesized code
together with the substring `RBC` or `FIDELITY` synthesizes a fund symbol. -/
def issuerFallbackSym (u : String) : Option String :=
  match (parenCodes u).head? with
  | some code =>
    if containsStr u "RBC" then some ("RBF" ++ code)
    else if containsStr u "FIDELITY" then some ("FID" ++ code)
    else none
  | none => none

/-- `resolve_rbc_symbol`. -/
def resolve_rbc_symbol (descText : String) (ct cs : AliasMap) : Option String :=
  let d := normalize_space descText
  if d = "" then none
  else
    let u := upperStr d
    let cd := compact_key u
    match rbcParenHit u cs with
    | some s => some s
    | none =>
      match rbcFreeHit u cs with
      | some s => some s
      | none =>
        match lookupStr ct cd with
        | some s => some s
        | none =>
          match rbcCandidates cd (token_key_set d) ct with
          | [] => issuerFallbackSym u
          | c :: rest => bestCandidate (c :: rest)

/-- `statement_usd_to_cad_rate`: first page whose FX match parses wins; the
fixed default `1.35` (as the exact rational `27/20`) when none does. -/
def statement_usd_to_cad_rate : List String → ℚ
  | [] => mkRat 27 20
  | p :: rest =>
    match (rbcFxFind p).bind pyFloatStr with
    | some r => r
    | none => statement_usd_to_cad_rate rest

/-- The mutable `current` candidate of the activity walk. -/
structure Pending where
  date : String
  side : String
  currency : String
  descParts : List String
  amount : Option ℚ
deriving DecidableEq, Repr

/-- A finalized trade `(date, side, symbol, amount)`. -/
abbrev Trade := String × String × String × ℚ

/-- An unresolved diagnostic record `(date, side, desc_text, amount)`. -/
abbrev Unres := String × String × String × ℚ

/-- State of the activity walk. -/
structure MState where
  current : Option Pending
  inActivity : Bool
  trades : List Trade
  unresolved : List Unres
deriving DecidableEq, Repr

/-- Truthiness of the resolver's result (`if not symbol` in the source:
`None` and the empty string are falsy). -/
def truthySym : Option String → Bool
  | none => false
  | some s => decide (s ≠ "")

/-- `flush_current`: returns the appended trade (if any), the appended
unresolved record (if any), and the new value of `current` (always `None`). -/
def flush_current (ct cs : AliasMap) (usd : ℚ) (cur : Option Pending) :
    Option Trade × Option Unres × Option Pending :=
  match cur with
  | none => (none, none, none)
  | some p =>
    match p.amount with
    | none => (none, none, none)
    | some a =>
      let descText := normalize_space (joinSpace p.descParts)
      match resolve_rbc_symbol descText ct cs with
      | none => (none, some (p.date, p.side, descText, a), none)
      | some sym =>
        if sym = "" then (none, some (p.date, p.side, descText, a), none)
        else
          let ta := if p.currency = "USD" then a * usd else a
          (some (p.date, p.side, sym, |ta|), none, none)

/-- Apply a flush to the walk state, appending its outputs. -/
def applyFlush (ct cs : AliasMap) (usd : ℚ) (st : MState) : MState :=
  let r := flush_current ct cs usd st.current
  { st with
    current := r.2.2
    trades := st.trades ++ r.1.toList
    unresolved := st.unresolved ++ r.2.1.toList }

/-- `f"{n:02d}"` for the month/day fields. -/
def natPad2 (n : ℕ) : String :=
  if n < 10 then "0" ++ toString n else toString n

/-- `f"{y:04d}"` (sign included in the width, as in Python). -/
def intPad4 (y : ℤ) : String :=
  if y < 0 then
    let s := toString y.natAbs
    "-" ++ (String.mk (List.replicate (3 - s.length) '0') ++ s)
  else
    let s := toString y.toNat
    String.mk (List.replicate (4 - s.length) '0') ++ s

/-- ISO date built by the activity walk. -/
def isoDate (y : ℤ) (m d : ℕ) : String :=
  intPad4 y ++ "-" ++ natPad2 m ++ "-" ++ natPad2 d

/-- Trade year: December activity inside a January statement belongs to the
previous calendar year. -/
def rbcTradeYear (statementYear statementMonth monthNum : ℕ) : ℤ :=
  if statementMonth = 1 ∧ monthNum = 12 then (statementYear : ℤ) - 1
  else (statementYear : ℤ)

/-- Numeric value of the 1-2 digit day token. -/
def natOfDigits (ds : List Char) : ℕ := digitsVal ds

/-- Description fragment captured from the rest of an activity-start line:
the text before an inline amount triplet, or the whole (normalized) rest. -/
def activityDesc (rest : String) : String :=
  match rbcInlineAmount (normalize_space rest) with
  | some (pre, _) => normalize_space pre
  | none => normalize_space rest

/-- Inline amount captured from the rest of an activity-start line. -/
def activityAmount (rest : String) : Option ℚ :=
  match rbcInlineAmount (normalize_space rest) with
  | some (_, third) => parse_number third
  | none => none

/-- The dated-line branch of the activity walk: a non-`BOUGHT`/`SOLD` verb
closes a complete candidate, `BOUGHT`/`SOLD` flushes and opens a new
candidate (inline amounts captured from the remainder of the line). -/
def handleActivity (sy sm : ℕ) (usd : ℚ) (ct cs : AliasMap) (pageCur : String)
    (st : MState) (mon dayT verbRaw rest : String) : MState :=
  if upperStr verbRaw ≠ "BOUGHT" ∧ upperStr verbRaw ≠ "SOLD" then
    { (if (match st.current with
           | some p => p.amount.isSome
           | none => false) then applyFlush ct cs usd st else st) with
      current := none }
  else
    match month_token_to_number mon with
    | none => { applyFlush ct cs usd st with current := none }
    | some mn =>
      { applyFlush ct cs usd st with
        current := some
          { date := isoDate (rbcTradeYear sy sm mn) mn (natOfDigits dayT.data)
            side := if upperStr verbRaw = "BOUGHT" then "BUY" else "SELL"
            currency := pageCur
            descParts := if activityDesc rest ≠ "" then [activityDesc rest] else []
            amount := activityAmount rest } }

/-- Column-header / balance lines skipped inside the activity section. -/
def isColumnHeaderLine (line : String) : Bool :=
  strStartsWith line "Opening Balance" || line == "PRICE" ||
    line == "DATE ACTIVITY DESCRIPTION" || line == "QUANTITY \\RATE DEBIT CREDIT"

/-- Pattern `RBC_IGNORE_DESCRIPTION_LINE_RE` without its two `REC...PAY...`
alternatives: the fixed noise literals. -/
def ignoreLiterals : List String :=
  ["UNSOLICITED", "INTERCLASSSWITCHIN", "INTERCLASSSWITCHOUT", "ASOF",
   "AVG PRICE SHOWN", "WE ACTED AS PRINCIPAL", "THESEARESECURITIES",
   "RELATEDISSUER", "STCG", "REINV", "REINV@", "DIST ON", "CASHDIV ON",
   "CASH DIV ON", "PREMIUMDISTON", "PREMIUM DIST ON", "DA", "CA"]

/-- Digit-or-slash class `[0-9/]` of the `REC...PAY...` alternatives. -/
def isRecPayChar (c : Char) : Bool := c.isDigit ∨ c = '/'

/-- `REC[0-9/]+PAY[0-9/]+` (with `sep` inserted around the class runs for the
spaced variant `REC [0-9/]+ PAY [0-9/]+`): checks whether the whole string
splits as required. -/
def isRecPay (sep : String) (u : String) : Bool :=
  match ((("REC" ++ sep) : String).data).isPrefixOf u.data with
  | false => false
  | true =>
    let rest := u.data.drop (("REC" ++ sep).length)
    let run := rest.takeWhile isRecPayChar
    if run = [] then false
    else
      let rest2 := rest.drop run.length
      match ((sep ++ "PAY" ++ sep : String).data).isPrefixOf rest2 with
      | false => false
      | true =>
        let rest3 := rest2.drop ((sep ++ "PAY" ++ sep : String).length)
        decide (rest3 ≠ []) && rest3.all isRecPayChar

/-- `RBC_IGNORE_DESCRIPTION_LINE_RE.match(line.upper())`: the full-line noise
test applied by the walk before appending a description fragment. -/
def isIgnoredDesc (u : String) : Bool :=
  ignoreLiterals.contains u || isRecPay "" u || isRecPay " " u

/-- One normalized line of the activity walk (`parse_rbc_statement_trades`
loop body). -/
def stepLine (sy sm : ℕ) (usd : ℚ) (ct cs : AliasMap) (pageCur : String)
    (st : MState) (line : String) : MState :=
  if line = "" then st
  else if containsStr line "FOOTNOTES" then
    { applyFlush ct cs usd st with inActivity := false }
  else if containsStr line "Account Activity" then
    { applyFlush ct cs usd st with inActivity := true }
  else if !st.inActivity then st
  else if strStartsWith line "Closing Balance" then
    { applyFlush ct cs usd st with inActivity := false }
  else
    match rbcActivitySearch line with
    | some (mon, dayT, verbRaw, rest) => handleActivity sy sm usd ct cs pageCur st mon dayT verbRaw rest
    | none =>
      if isColumnHeaderLine line then st
      else
        match st.current with
        | none => st
        | some p =>
          match rbcAmountLine line, p.amount with
          | some (_, _, f3), none =>
            { st with current := some { p with amount := parse_number f3 } }
          | _, _ =>
            match rbcInlineAmount line, p.amount with
            | some (pre, f3), none =>
              let dl := normalize_space pre
              { st with
                current := some
                  { p with
                    descParts := p.descParts ++ (if dl ≠ "" then [dl] else [])
                    amount := parse_number f3 } }
            | _, _ =>
              if isIgnoredDesc (upperStr line) then st
              else { st with current := some { p with descParts := p.descParts ++ [line] } }

/-- One page of the activity walk: derive the page currency marker and fold
the per-line step over the normalized lines.  Unlike the alias collector, the
state (including `in_activity`) persists across page boundaries. -/
def stepPage (sy sm : ℕ) (usd : ℚ) (ct cs : AliasMap) (st : MState) (page : String) : MState :=
  let pageCur := if containsStr page "Statement (U.S.$)" then "USD" else "CAD"
  ((pySplitlines page).map normalize_space).foldl (stepLine sy sm usd ct cs pageCur) st

/-- `parse_rbc_statement_trades`: returns the trades and the diagnostic lines
printed (the unresolved-count message).  A filename without a `YYYY-MM-DD`
fragment yields `([], [])`. -/
def parse_rbc_statement_trades (name : String) (pages : List String)
    (ct cs : AliasMap) : List Trade × List String :=
  match extract_statement_year_month name with
  | none => ([], [])
  | some (sy, sm, _) =>
    let usd := statement_usd_to_cad_rate pages
    let st0 : MState := { current := none, inActivity := false, trades := [], unresolved := [] }
    let st := pages.foldl (stepPage sy sm usd ct cs) st0
    let st := applyFlush ct cs usd st
    (st.trades,
      if st.unresolved ≠ [] then
        ["RBC unresolved symbols in " ++ name ++ ": " ++ toString st.unresolved.length]
      else [])

/-- First phase of `parse_rbc`: one pair of alias tables built from the pages
of ALL statement files (files with no pages are skipped). -/
def rbcBuildAliasTables (files : List (String × List String)) : Tables :=
  files.foldl (fun t f => if f.2.isEmpty then t else collect_rbc_asset_aliases f.2 t) ([], [])

/-- `parse_rbc`, with PDF extraction modelled as the input pairing of file
names to page texts: build the shared alias tables from every file, then run
the activity walk per file, concatenating the trades. -/
def parse_rbc (files : List (String × List String)) : List Trade :=
  let t := rbcBuildAliasTables files
  files.foldl
    (fun acc f =>
      if f.2.isEmpty then acc
      else acc ++ (parse_rbc_statement_trades f.1 f.2 t.1 t.2).1)
    []

/-- Lexicographic code-point comparison (Python `str` ordering). -/
def listLe : List Char → List Char → Bool
  | [], _ => true
  | _ :: _, [] => false
  | a :: as, b :: bs =>
    if a.toNat < b.toNat then true
    else if b.toNat < a.toNat then false
    else listLe as bs

/-- Insert into a sorted list (helper for Python `sorted`). -/
def insertSorted (x : String) : List String → List String
  | [] => [x]
  | y :: ys => if listLe x.data y.data then x :: y :: ys else y :: insertSorted x ys

/-- Python `sorted` on strings (insertion sort; stable, same order). -/
def sortStr : List String → List String
  | [] => []
  | x :: xs => insertSorted x (sortStr xs)

/-- Greedy match of `re.match(r"^(.*)-\d+\.pdf$", name)`: the base before the
last `-<digits>` segment adjacent to `.pdf`. -/
def dupBase (n : String) : Option String :=
  if strEndsWith n ".pdf" then
    if (n.data.take (n.data.length - 4)).reverse.takeWhile Char.isDigit ≠ [] then
      match (n.data.take (n.data.length - 4)).reverse.dropWhile Char.isDigit with
      | '-' :: restR => some (String.mk restR.reverse)
      | _ => none
    else none
  else none

/-- Does the directory listing contain `BASE.pdf` for a duplicate-copy name
`BASE-<digits>.pdf`? -/
def isDupCopy (names : List String) (n : String) : Bool :=
  match dupBase n with
  | some b => names.contains (b ++ ".pdf")
  | none => false

/-- `list_rbc_statement_pdfs`, with the directory listing as input: glob
`*.pdf`, sort, and skip duplicate copies whose base PDF exists. -/
def list_rbc_statement_pdfs (names : List String) : List String :=
  let files := sortStr (names.filter (fun n => strEndsWith n ".pdf"))
  files.filter (fun n => !isDupCopy names n)

/-! ### Supporting lemmas -/

theorem dropWhile_of_forall_not {p : Char → Bool} {l : List Char}
    (h : ∀ c ∈ l, p c = false) : l.dropWhile p = l := by
  cases l with
  | nil => rfl
  | cons c t =>
    rw [List.dropWhile_cons, h c (List.mem_cons_self c t)]
    simp

theorem stripWS_of_forall {l : List Char} (h : ∀ c ∈ l, isWsChar c = false) :
    stripWS l = l := by
  unfold stripWS stripL stripR
  rw [dropWhile_of_forall_not h,
    dropWhile_of_forall_not (fun c hc => h c (List.mem_reverse.mp hc)),
    List.reverse_reverse]

theorem not_ws_of_digit_or_dot {c : Char} (h : c.isDigit = true ∨ c = '.') :
    isWsChar c = false := by
  simp only [isWsChar, decide_eq_false_iff_not]
  rintro (rfl | rfl | rfl | rfl | rfl | rfl) <;>
    rcases h with h | h <;> exact absurd h (by decide)

theorem digit_or_dot_ne {c : Char} (h : c.isDigit = true ∨ c = '.') :
    c ≠ '-' ∧ c ≠ '+' ∧ c ≠ '$' ∧ c ≠ ',' := by
  refine ⟨?_, ?_, ?_, ?_⟩ <;> rintro rfl <;>
    rcases h with h | h <;> exact absurd h (by decide)

theorem parseUnsignedBody_nil : parseUnsignedBody [] = none := rfl

theorem parseUnsignedBody_chars {cs : List Char} {q : ℚ}
    (h : parseUnsignedBody cs = some q) : ∀ c ∈ cs, c.isDigit = true ∨ c = '.' := by
  intro c hc
  have hsplit := List.takeWhile_append_dropWhile Char.isDigit cs
  rw [← hsplit] at hc
  rcases List.mem_append.mp hc with hmem | hmem
  · exact Or.inl (List.mem_takeWhile_imp hmem)
  rcases hdd : cs.dropWhile Char.isDigit with _ | ⟨c0, fr⟩
  · rw [hdd] at hmem; simp at hmem
  rw [hdd] at hmem
  have hkey : c0 = '.' ∧ ∀ x ∈ fr, x.isDigit = true := by
    unfold parseUnsignedBody at h
    rw [hdd] at h
    split at h
    · split at h
      · rename_i heq
        simp at heq
      · rename_i fr' heq
        injection heq with h1 h2
        subst h2
        split at h
        · rename_i hcond
          exact ⟨h1, fun x hx => List.all_eq_true.mp hcond x hx⟩
        · exact Option.noConfusion h
      · exact Option.noConfusion h
    · split at h
      · rename_i fr' heq
        injection heq with h1 h2
        subst h2
        split at h
        · rename_i hcond
          exact ⟨h1, fun x hx => List.all_eq_true.mp hcond.2 x hx⟩
        · exact Option.noConfusion h
      · exact Option.noConfusion h
  rcases List.mem_cons.mp hmem with rfl | hmem2
  · exact Or.inr hkey.1
  · exact Or.inl (hkey.2 c hmem2)

theorem pyFloatList_unsigned {cs : List Char} {q : ℚ}
    (h : parseUnsignedBody cs = some q) :
    pyFloatList cs = some q ∧ pyFloatList ('-' :: cs) = some (-q) := by
  have hch := parseUnsignedBody_chars h
  have hws : ∀ c ∈ cs, isWsChar c = false := fun c hc => not_ws_of_digit_or_dot (hch c hc)
  have hstrip : stripWS cs = cs := stripWS_of_forall hws
  have hstrip2 : stripWS ('-' :: cs) = '-' :: cs := by
    refine stripWS_of_forall ?_
    intro c hc
    rcases List.mem_cons.mp hc with rfl | hc
    · decide
    · exact hws c hc
  constructor
  · unfold pyFloatList
    rw [hstrip]
    cases cs with
    | nil => rw [parseUnsignedBody_nil] at h; exact absurd h (by simp)
    | cons c0 rest =>
      have h0 : c0.isDigit = true ∨ c0 = '.' :=
        hch c0 (List.mem_cons_self c0 rest)
      simp only [pyFloatSigned]
      rw [if_neg (digit_or_dot_ne h0).1, if_neg (digit_or_dot_ne h0).2.1]
      exact h
  · unfold pyFloatList
    rw [hstrip2]
    have hred : pyFloatSigned ('-' :: cs) = (parseUnsignedBody cs).map (fun x => -x) := rfl
    rw [hred, h]
    rfl

theorem parse_number_unsigned {s : String} {q : ℚ}
    (hw : ∀ c ∈ s.data, isWsChar c = false)
    (h : parseUnsignedBody ((s.data.filter (fun c => c ≠ '$')).filter (fun c => c ≠ ',')) = some q) :
    parse_number s = some q ∧ parse_number (s ++ "-") = some (-q) := by
  have hch := parseUnsignedBody_chars h
  have hwF : ∀ c ∈ (s.data.filter (fun c => c ≠ '$')).filter (fun c => c ≠ ','),
      isWsChar c = false :=
    fun c hc => hw c (List.mem_of_mem_filter (List.mem_of_mem_filter hc))
  have hstripF : pyCleanChars s
      = (s.data.filter (fun c => c ≠ '$')).filter (fun c => c ≠ ',') := by
    unfold pyCleanChars
    exact stripWS_of_forall hwF
  have hclean2 : pyCleanChars (s ++ "-")
      = (s.data.filter (fun c => c ≠ '$')).filter (fun c => c ≠ ',') ++ ['-'] := by
    unfold pyCleanChars
    have hdata : (s ++ "-").data = s.data ++ ['-'] := String.data_append s "-"
    rw [hdata, List.filter_append, List.filter_append]
    have hfm : (['-'].filter (fun c => c ≠ '$')).filter (fun c => c ≠ ',') = ['-'] := by decide
    rw [hfm]
    refine stripWS_of_forall ?_
    intro c hc
    rcases List.mem_append.mp hc with hc | hc
    · exact hwF c hc
    · rcases List.mem_singleton.mp hc with rfl; decide
  constructor
  · unfold parse_number
    rw [hstripF]
    rw [if_neg ?hlast]
    case hlast =>
      intro hlast
      have hmem := List.mem_of_mem_getLast? hlast
      exact absurd rfl (digit_or_dot_ne (hch '-' hmem)).1
    exact (pyFloatList_unsigned h).1
  · unfold parse_number
    rw [hclean2, List.getLast?_concat, if_pos rfl, List.dropLast_concat]
    exact (pyFloatList_unsigned h).2

theorem rbcAmountLine_inline_none {line : String} {f : String × String × String}
    (h : rbcAmountLine line = some f) : rbcInlineAmount line = none := by
  unfold rbcAmountLine at h
  split at h
  · rename_i a b c heq
    unfold rbcInlineAmount
    rw [heq]
    simp
  · exact Option.noConfusion h

theorem rbcInline_amountLine_none {line : String} {f : String × String}
    (h : rbcInlineAmount line = some f) : rbcAmountLine line = none := by
  unfold rbcInlineAmount at h
  split at h
  · rename_i hc
    unfold rbcAmountLine
    split
    · rename_i a b c heq
      rw [heq] at hc
      simp at hc
    · rfl
  · exact Option.noConfusion h

/-! ### Claim theorems -/

/-- C2: flushing a live candidate appends a `Trade` exactly when an amount was
captured and the description resolves to a (truthy) symbol; an amount without
a resolvable symbol yields exactly an unresolved diagnostic; no amount yields
nothing at all; and `current` is cleared in every case. -/
theorem C2_flush_behavior (ct cs : AliasMap) (usd : ℚ) :
    (∀ cur, (flush_current ct cs usd cur).2.2 = none)
    ∧ flush_current ct cs usd none = (none, none, none)
    ∧ (∀ p : Pending, p.amount = none →
        flush_current ct cs usd (some p) = (none, none, none))
    ∧ (∀ (p : Pending) (a : ℚ), p.amount = some a →
        truthySym (resolve_rbc_symbol (normalize_space (joinSpace p.descParts)) ct cs) = false →
        (flush_current ct cs usd (some p)).1 = none ∧
        (flush_current ct cs usd (some p)).2.1 =
          some (p.date, p.side, normalize_space (joinSpace p.descParts), a))
    ∧ (∀ (p : Pending) (a : ℚ) (s : String), p.amount = some a →
        resolve_rbc_symbol (normalize_space (joinSpace p.descParts)) ct cs = some s →
        s ≠ "" →
        (flush_current ct cs usd (some p)).1 =
          some (p.date, p.side, s, |if p.currency = "USD" then a * usd else a|) ∧
        (flush_current ct cs usd (some p)).2.1 = none) := by
  refine ⟨?_, rfl, ?_, ?_, ?_⟩
  · intro cur
    rcases cur with _ | p
    · rfl
    · rcases hpa : p.amount with _ | a
      · simp [flush_current, hpa]
      · rcases hr : resolve_rbc_symbol (normalize_space (joinSpace p.descParts)) ct cs with _ | s
        · simp [flush_current, hpa, hr]
        · by_cases hs : s = "" <;> simp [flush_current, hpa, hr, hs]
  · intro p hpa
    simp [flush_current, hpa]
  · intro p a hpa ht
    rcases hr : resolve_rbc_symbol (normalize_space (joinSpace p.descParts)) ct cs with _ | s
    · simp [flush_current, hpa, hr]
    · rw [hr] at ht
      have hs : s = "" := by
        by_contra hcon
        simp [truthySym, hcon] at ht
      subst hs
      simp [flush_current, hpa, hr]
  · intro p a s hpa hr hs
    simp [flush_current, hpa, hr, hs]

/-- Witness for C2 on a concrete resolvable candidate. -/
theorem C2_flush_behavior_witness :
    (flush_current [("GOODFUND", "GF")] [] 1
        (some { date := "2023-02-01", side := "BUY", currency := "CAD",
                descParts := ["GOOD FUND"], amount := some 50 })).1 =
      some ("2023-02-01", "BUY", "GF", |if "CAD" = "USD" then (50 : ℚ) * 1 else 50|) :=
  ((C2_flush_behavior [("GOODFUND", "GF")] [] 1).2.2.2.2
    { date := "2023-02-01", side := "BUY", currency := "CAD",
      descParts := ["GOOD FUND"], amount := some 50 }
    50 "GF" rfl (by decide) (by decide)).1

/-- C3: an activity-start line with verb `BOUGHT` or `SOLD` creates a
candidate whose ISO date uses year `Y - 1` exactly when the statement month is
January and the line month is December, and year `Y` otherwise. -/
theorem C3_december_rollover (sy sm : ℕ) (usd : ℚ) (ct cs : AliasMap)
    (pageCur : String) (st : MState) (line mon dayT verb rest : String) (mn : ℕ)
    (hact : st.inActivity = true)
    (hf : containsStr line "FOOTNOTES" = false)
    (haa : containsStr line "Account Activity" = false)
    (hcb : strStartsWith line "Closing Balance" = false)
    (hs : rbcActivitySearch line = some (mon, dayT, verb, rest))
    (hv : verb = "BOUGHT" ∨ verb = "SOLD")
    (hm : month_token_to_number mon = some mn) :
    ∃ p : Pending,
      (stepLine sy sm usd ct cs pageCur st line).current = some p ∧
      p.date = isoDate (if sm = 1 ∧ mn = 12 then (sy : ℤ) - 1 else (sy : ℤ)) mn
        (natOfDigits dayT.data) := by
  have hne : line ≠ "" := by
    intro e
    rw [e, show rbcActivitySearch "" = none from rfl] at hs
    exact Option.noConfusion hs
  unfold stepLine
  rw [if_neg hne]
  simp only [hf, haa, hcb, hact, hs, Bool.not_true, Bool.false_eq_true, if_false]
  unfold handleActivity
  rcases hv with rfl | rfl
  · rw [if_neg (by decide), hm]
    exact ⟨_, rfl, by simp [rbcTradeYear]⟩
  · rw [if_neg (by decide), hm]
    exact ⟨_, rfl, by simp [rbcTradeYear]⟩

/-- Witness for C3: `DEC. 29` inside a statement dated `2023-01` yields trade
date `2022-12-29`, and `FEB. 1` inside `2023-03` stays in 2023. -/
theorem C3_december_rollover_witness :
    (∃ p : Pending,
      (stepLine 2023 1 1 [] [] "CAD"
          { current := none, inActivity := true, trades := [], unresolved := [] }
          "DEC. 29 BOUGHT GLOBAL FUND").current = some p ∧
      p.date = "2022-12-29")
    ∧ (∃ p : Pending,
      (stepLine 2023 3 1 [] [] "CAD"
          { current := none, inActivity := true, trades := [], unresolved := [] }
          "FEB. 1 BOUGHT GLOBAL FUND").current = some p ∧
      p.date = "2023-02-01") := by
  constructor
  · obtain ⟨p, hp, hd⟩ := C3_december_rollover 2023 1 1 [] [] "CAD"
      { current := none, inActivity := true, trades := [], unresolved := [] }
      "DEC. 29 BOUGHT GLOBAL FUND" "DEC" "29" "BOUGHT" "GLOBAL FUND" 12
      rfl (by decide) (by decide) (by decide) (by decide) (Or.inl rfl) (by decide)
    exact ⟨p, hp, by rw [hd]; decide⟩
  · obtain ⟨p, hp, hd⟩ := C3_december_rollover 2023 3 1 [] [] "CAD"
      { current := none, inActivity := true, trades := [], unresolved := [] }
      "FEB. 1 BOUGHT GLOBAL FUND" "FEB" "1" "BOUGHT" "GLOBAL FUND" 2
      rfl (by decide) (by decide) (by decide) (by decide) (Or.inl rfl) (by decide)
    exact ⟨p, hp, by rw [hd]; decide⟩

/-- C4: while a candidate is live, an amount-triplet line sets the amount to
the parsed third field only when the amount is unset; an inline-amount line
does the same and appends its leading text as a description fragment; a line
of either shape never changes an already-set amount (first amount wins). -/
theorem C4_amount_first_wins (sy sm : ℕ) (usd : ℚ) (ct cs : AliasMap)
    (pageCur : String) (st : MState) (line : String) (p : Pending)
    (hcur : st.current = some p)
    (hact : st.inActivity = true)
    (hne : line ≠ "")
    (hf : containsStr line "FOOTNOTES" = false)
    (haa : containsStr line "Account Activity" = false)
    (hcb : strStartsWith line "Closing Balance" = false)
    (hsearch : rbcActivitySearch line = none)
    (hhdr : isColumnHeaderLine line = false) :
    (∀ f1 f2 f3, rbcAmountLine line = some (f1, f2, f3) → p.amount = none →
      (stepLine sy sm usd ct cs pageCur st line).current =
        some { p with amount := parse_number f3 })
    ∧ (∀ f1 f2 f3 a, rbcAmountLine line = some (f1, f2, f3) → p.amount = some a →
        ∃ p', (stepLine sy sm usd ct cs pageCur st line).current = some p' ∧
          p'.amount = some a)
    ∧ (∀ pre f3, rbcInlineAmount line = some (pre, f3) → p.amount = none →
        (stepLine sy sm usd ct cs pageCur st line).current =
          some { p with
                 descParts := p.descParts ++
                   (if normalize_space pre ≠ "" then [normalize_space pre] else [])
                 amount := parse_number f3 })
    ∧ (∀ pre f3 a, rbcInlineAmount line = some (pre, f3) → p.amount = some a →
        ∃ p', (stepLine sy sm usd ct cs pageCur st line).current = some p' ∧
          p'.amount = some a) := by
  have hred : stepLine sy sm usd ct cs pageCur st line =
      (match rbcAmountLine line, p.amount with
       | some (_, _, f3), none =>
         { st with current := some { p with amount := parse_number f3 } }
       | _, _ =>
         match rbcInlineAmount line, p.amount with
         | some (pre, f3), none =>
           { st with
             current := some
               { p with
                 descParts := p.descParts ++
                   (if normalize_space pre ≠ "" then [normalize_space pre] else [])
                 amount := parse_number f3 } }
         | _, _ =>
           if isIgnoredDesc (upperStr line) then st
           else { st with current := some { p with descParts := p.descParts ++ [line] } }) := by
    unfold stepLine
    rw [if_neg hne]
    simp only [hf, haa, hcb, hact, hsearch, hhdr, hcur, Bool.not_true,
      Bool.false_eq_true, if_false]
  refine ⟨?_, ?_, ?_, ?_⟩
  · intro f1 f2 f3 ham hpa
    rw [hred, ham, hpa]
  · intro f1 f2 f3 a ham hpa
    rw [hred, ham, hpa, rbcAmountLine_inline_none ham]
    by_cases hig : isIgnoredDesc (upperStr line) = true
    · rw [if_pos hig, hcur]
      exact ⟨p, rfl, hpa⟩
    · rw [if_neg (by simp [Bool.not_eq_true] at hig; simp [hig])]
      exact ⟨_, rfl, rfl⟩
  · intro pre f3 hin hpa
    rw [hred, rbcInline_amountLine_none hin, hin, hpa]
  · intro pre f3 a hin hpa
    rw [hred, rbcInline_amountLine_none hin, hin, hpa]
    by_cases hig : isIgnoredDesc (upperStr line) = true
    · rw [if_pos hig, hcur]
      exact ⟨p, rfl, hpa⟩
    · rw [if_neg (by simp [Bool.not_eq_true] at hig; simp [hig])]
      exact ⟨_, rfl, rfl⟩

/-- Witness for C4: the triplet line `100.000 10.00 1,000.00-` sets the amount
`-1000` (the third field), and does not change an already-set amount. -/
theorem C4_amount_first_wins_witness :
    (stepLine 2023 2 1 [] [] "CAD"
        { current := some { date := "2023-02-01", side := "BUY", currency := "CAD",
                            descParts := [], amount := none },
          inActivity := true, trades := [], unresolved := [] }
        "100.000 10.00 1,000.00-").current =
      some { date := "2023-02-01", side := "BUY", currency := "CAD",
             descParts := [], amount := some (mkRat (-100000) 100) } := by
  have h := (C4_amount_first_wins 2023 2 1 [] [] "CAD"
    { current := some { date := "2023-02-01", side := "BUY", currency := "CAD",
                        descParts := [], amount := none },
      inActivity := true, trades := [], unresolved := [] }
    "100.000 10.00 1,000.00-"
    { date := "2023-02-01", side := "BUY", currency := "CAD",
      descParts := [], amount := none }
    rfl rfl (by decide) (by decide) (by decide) (by decide) (by decide) (by decide)).1
    "100.000" "10.00" "1,000.00-" (by decide) rfl
  rw [h]
  decide

/-- C6: a trailing `-` denotes negation — `parse_number "1,234.56-"` is exactly
`-1234.56`; in general, for a whitespace-free string whose `$`/`,`-stripped
form is a well-formed non-negative numeral of value `q`, `parse_number`
returns exactly `q`, and appending a trailing `-` returns exactly `-q`;
malformed numeric strings yield `none` instead of raising. -/
theorem C6_parse_number_accounting :
    parse_number "1,234.56-" = some (mkRat (-123456) 100)
    ∧ (∀ (s : String) (q : ℚ), (∀ c ∈ s.data, isWsChar c = false) →
        parseUnsignedBody ((s.data.filter (fun c => c ≠ '$')).filter (fun c => c ≠ ',')) = some q →
        parse_number s = some q ∧ parse_number (s ++ "-") = some (-q))
    ∧ parse_number "12-34" = none ∧ parse_number "ABC" = none := by
  exact ⟨by decide, fun s q hw h => parse_number_unsigned hw h, by decide, by decide⟩

/-- Witness for C6 at the concrete input `$1,000.25`. -/
theorem C6_parse_number_accounting_witness :
    parse_number "$1,000.25" = some (mkRat 100025 100)
    ∧ parse_number "$1,000.25-" = some (-(mkRat 100025 100)) :=
  C6_parse_number_accounting.2.1 "$1,000.25" (mkRat 100025 100) (by decide) (by decide)

/-- C7: the statement's USD→CAD rate is the first parseable
`Exchange rate 1USD = <rate> CAD` match in page order, `1.35` (= `27/20`) when
no page has one; an emitted trade's amount is the candidate amount times the
rate when the candidate's page currency is USD and unscaled otherwise, and is
always a non-negative magnitude. -/
theorem C7_fx_rate_and_scaling :
    (∀ pages : List String, (∀ p ∈ pages, rbcFxFind p = none) →
      statement_usd_to_cad_rate pages = mkRat 27 20)
    ∧ (∀ (ps : List String) (p : String) (rest : List String) (s : String) (r : ℚ),
        (∀ q ∈ ps, rbcFxFind q = none) → rbcFxFind p = some s → pyFloatStr s = some r →
        statement_usd_to_cad_rate (ps ++ p :: rest) = r)
    ∧ (∀ (ct cs : AliasMap) (usd : ℚ) (p : Pending) (a : ℚ) (tr : Trade),
        p.amount = some a → (flush_current ct cs usd (some p)).1 = some tr →
        tr.2.2.2 = |if p.currency = "USD" then a * usd else a|)
    ∧ (∀ (ct cs : AliasMap) (usd : ℚ) (cur : Option Pending) (tr : Trade),
        (flush_current ct cs usd cur).1 = some tr → 0 ≤ tr.2.2.2) := by
  refine ⟨?_, ?_, ?_, ?_⟩
  · intro pages h
    induction pages with
    | nil => rfl
    | cons p rest ih =>
      have hp := h p (List.mem_cons_self p rest)
      simp only [statement_usd_to_cad_rate, hp, Option.none_bind]
      exact ih (fun q hq => h q (List.mem_cons_of_mem p hq))
  · intro ps
    induction ps with
    | nil =>
      intro p rest s r _ hfx hpf
      simp only [List.nil_append, statement_usd_to_cad_rate, hfx, Option.some_bind, hpf]
    | cons q ps ih =>
      intro p rest s r hnone hfx hpf
      have hq := hnone q (List.mem_cons_self q ps)
      simp only [List.cons_append, statement_usd_to_cad_rate, hq, Option.none_bind]
      exact ih p rest s r (fun x hx => hnone x (List.mem_cons_of_mem q hx)) hfx hpf
  · intro ct cs usd p a tr hpa htr
    rcases hr : resolve_rbc_symbol (normalize_space (joinSpace p.descParts)) ct cs with _ | s
    · simp [flush_current, hpa, hr] at htr
    · by_cases hse : s = ""
      · simp [flush_current, hpa, hr, hse] at htr
      · have heval : (flush_current ct cs usd (some p)).1 =
            some (p.date, p.side, s, |if p.currency = "USD" then a * usd else a|) := by
          simp [flush_current, hpa, hr, hse]
        rw [heval] at htr
        rw [← Option.some.inj htr]
  · intro ct cs usd cur tr htr
    rcases cur with _ | p
    · simp [flush_current] at htr
    · rcases hpa : p.amount with _ | a
      · simp [flush_current, hpa] at htr
      · rcases hr : resolve_rbc_symbol (normalize_space (joinSpace p.descParts)) ct cs with _ | s
        · simp [flush_current, hpa, hr] at htr
        · by_cases hse : s = ""
          · simp [flush_current, hpa, hr, hse] at htr
          · have heval : (flush_current ct cs usd (some p)).1 =
                some (p.date, p.side, s, |if p.currency = "USD" then a * usd else a|) := by
              simp [flush_current, hpa, hr, hse]
            rw [heval] at htr
            rw [← Option.some.inj htr]
            exact abs_nonneg _
/-- Witness for C7: default rate with no FX line, and the first FX line found
in page order wins. -/
theorem C7_fx_rate_and_scaling_witness :
    statement_usd_to_cad_rate ["no rate here"] = mkRat 27 20
    ∧ statement_usd_to_cad_rate
        ["page one", "see Exchange rate 1USD = 1.3417 CAD here"] = mkRat 13417 10000 :=
  ⟨C7_fx_rate_and_scaling.1 ["no rate here"] (by decide),
   C7_fx_rate_and_scaling.2.1 ["page one"] "see Exchange rate 1USD = 1.3417 CAD here" []
     "1.3417" (mkRat 13417 10000) (by decide) (by decide) (by decide)⟩

/-- C8 counterexample: a statement file whose name has no `YYYY-MM-DD`
fragment is skipped with NO diagnostic log line (second component empty),
while the same pages under a dated name do produce a trade — so the skip is
silent, contrary to the claim that it is logged. -/
theorem C8_skip_not_logged_counterexample :
    parse_rbc_statement_trades "statement.pdf"
      ["Account Activity\nFEB. 1 BOUGHT GOOD FUND (123)\n1.000 1.00 50.00"]
      [] [("123", "XYZ")] = ([], [])
    ∧ parse_rbc_statement_trades "rbc-2023-03-01.pdf"
      ["Account Activity\nFEB. 1 BOUGHT GOOD FUND (123)\n1.000 1.00 50.00"]
      [] [("123", "XYZ")] = ([("2023-02-01", "BUY", "XYZ", 50)], []) :=
  ⟨by decide, by decide⟩

/-- C8 (amended): a statement file whose filename has no parseable
`YYYY-MM-DD` fragment yields zero trades and zero diagnostic lines — it is
skipped silently and nothing is raised (the embedding is total). -/
theorem C8_unparseable_filename_skipped (name : String) (pages : List String)
    (ct cs : AliasMap) (h : extract_statement_year_month name = none) :
    parse_rbc_statement_trades name pages ct cs = ([], []) := by
  unfold parse_rbc_statement_trades
  rw [h]

/-- Witness for the amended C8. -/
theorem C8_unparseable_filename_skipped_witness :
    parse_rbc_statement_trades "statement-january.pdf"
      ["Account Activity\nFEB. 1 BOUGHT GOOD FUND (123)\n1.000 1.00 50.00"]
      [] [("123", "XYZ")] = ([], []) :=
  C8_unparseable_filename_skipped "statement-january.pdf"
    ["Account Activity\nFEB. 1 BOUGHT GOOD FUND (123)\n1.000 1.00 50.00"]
    [] [("123", "XYZ")] (by decide)

theorem collectLines_no_review (lines : List String) :
    ∀ t : Tables, (∀ l ∈ lines, containsStr l "Asset Review" = false) →
      collectLines lines t false = t := by
  induction lines with
  | nil => intro t _; rfl
  | cons l rest ih =>
    intro t h
    have hl := h l (List.mem_cons_self l rest)
    have hcl : collectLine t false l = (t, false) := by
      unfold collectLine
      by_cases he : l = ""
      · rw [if_pos he]
      · rw [if_neg he, hl]
        simp
    simp only [collectLines, hcl]
    exact ih t (fun x hx => h x (List.mem_cons_of_mem l hx))

/-- C9: the alias collector's `in_asset_review` mode restarts `false` on every
page — a page containing no `Asset Review` line contributes no alias entries
even if the previous page ended inside an Asset Review section — while the
activity walk's `in_activity` flag persists across page boundaries (a trade
on a page with no `Account Activity` marker is still collected when the
marker appeared on an earlier page). -/
theorem C9_review_mode_per_page :
    (∀ (t : Tables) (ps : List String) (p : String),
      (∀ l ∈ pySplitlines p, containsStr (normalize_space l) "Asset Review" = false) →
      collect_rbc_asset_aliases (ps ++ [p]) t = collect_rbc_asset_aliases ps t)
    ∧ parse_rbc_statement_trades "rbc-2023-03-02.pdf"
        ["Account Activity", "FEB. 1 BOUGHT GOOD FUND (123)\n1.000 1.00 50.00"]
        [] [("123", "XYZ")] = ([("2023-02-01", "BUY", "XYZ", 50)], [])
    ∧ collect_rbc_asset_aliases
        ["Asset Review", "SOME GOOD FUND (123) XYZ 1.000 1.00 50.00 $50.00"]
        ([], []) = ([], []) := by
  refine ⟨?_, by decide, by decide⟩
  intro t ps p h
  unfold collect_rbc_asset_aliases
  rw [List.foldl_append]
  show List.foldl collectPage (List.foldl collectPage t ps) [p] = _
  simp only [List.foldl_cons, List.foldl_nil]
  unfold collectPage
  apply collectLines_no_review
  intro l' hl'
  rcases List.mem_map.mp hl' with ⟨l, hl, rfl⟩
  exact h l hl

/-- Witness for C9: appending a review-free page changes nothing. -/
theorem C9_review_mode_per_page_witness :
    collect_rbc_asset_aliases
      ["Asset Review\nSOME GOOD FUND (123) XYZ 1.000 1.00 50.00 $50.00",
       "no review on this page"] ([], []) =
    collect_rbc_asset_aliases
      ["Asset Review\nSOME GOOD FUND (123) XYZ 1.000 1.00 50.00 $50.00"] ([], []) :=
  C9_review_mode_per_page.1 ([], [])
    ["Asset Review\nSOME GOOD FUND (123) XYZ 1.000 1.00 50.00 $50.00"]
    "no review on this page" (by decide)

theorem foldl_skip_append {α β : Type} (g : α → List β) (p : α → Bool) :
    ∀ (l : List α) (init : List β),
      l.foldl (fun acc x => if p x then acc else acc ++ g x) init
        = init ++ ((l.filter (fun x => !p x)).map g).flatten := by
  intro l
  induction l with
  | nil => intro init; simp
  | cons x xs ih =>
    intro init
    by_cases hp : p x = true
    · simp only [List.foldl_cons, hp, if_true, List.filter_cons, Bool.not_true]
      rw [ih]
      simp
    · have hp' : p x = false := by simp [Bool.not_eq_true] at hp; exact hp
      simp only [List.foldl_cons, hp', Bool.false_eq_true, if_false, List.filter_cons,
        Bool.not_false]
      rw [ih]
      simp [List.append_assoc]

/-- C1 counterexample: with two statement files, the trade in the second file
resolves through an alias collected from the FIRST file's Asset Review pages
(parsing the second file alone yields no trade at all) — so an alias entry
originating from a different statement file does influence symbol resolution,
contrary to the claim. -/
theorem C1_per_file_alias_counterexample :
    parse_rbc
      [("rbc-2023-01-15.pdf",
        ["Asset Review\nGLOBAL TECH FUND (1234) GTF 10.000 10.00 100.00 $100.00"]),
       ("rbc-2023-02-15.pdf",
        ["Account Activity\nFEB. 1 BOUGHT GLOBAL TECH FUND (1234)\n5.000 20.00 100.00"])]
      = [("2023-02-01", "BUY", "GTF", 100)]
    ∧ parse_rbc
      [("rbc-2023-02-15.pdf",
        ["Account Activity\nFEB. 1 BOUGHT GLOBAL TECH FUND (1234)\n5.000 20.00 100.00"])]
      = [] :=
  ⟨by decide, by decide⟩

/-- C1 (amended): a single pair of alias tables is built from the pages of
ALL statement files before any activity pass, and every statement's activity
pass reads that same shared (read-only) table — so alias entries from other
statement files can influence resolution. -/
theorem C1_global_alias_tables (files : List (String × List String)) :
    parse_rbc files =
      ((files.filter (fun f => !f.2.isEmpty)).map
        (fun f => (parse_rbc_statement_trades f.1 f.2
          (rbcBuildAliasTables files).1 (rbcBuildAliasTables files).2).1)).flatten := by
  unfold parse_rbc
  rw [foldl_skip_append
    (fun f => (parse_rbc_statement_trades f.1 f.2
      (rbcBuildAliasTables files).1 (rbcBuildAliasTables files).2).1)
    (fun f => f.2.isEmpty) files []]
  simp

theorem bestCandAux_spec :
    ∀ (l : List (ℕ × String)) (b : ℕ × String),
      bestCandAux b l ∈ b :: l ∧ ∀ q ∈ b :: l, q.1 ≤ (bestCandAux b l).1 := by
  intro l
  induction l with
  | nil =>
    intro b
    refine ⟨List.mem_singleton.mpr rfl, ?_⟩
    intro q hq
    rcases List.mem_singleton.mp hq with rfl
    exact le_refl _
  | cons c rest ih =>
    intro b
    have h := ih (if b.1 < c.1 then c else b)
    have hb1 : b.1 ≤ (if b.1 < c.1 then c else b).1 := by
      by_cases hbc : b.1 < c.1
      · rw [if_pos hbc]; omega
      · rw [if_neg hbc]
    have hc1 : c.1 ≤ (if b.1 < c.1 then c else b).1 := by
      by_cases hbc : b.1 < c.1
      · rw [if_pos hbc]
      · rw [if_neg hbc]; omega
    constructor
    · show bestCandAux (if b.1 < c.1 then c else b) rest ∈ b :: c :: rest
      rcases List.mem_cons.mp h.1 with he | hm2
      · rw [he]
        by_cases hbc : b.1 < c.1
        · rw [if_pos hbc]
          exact List.mem_cons_of_mem b (List.mem_cons_self c rest)
        · rw [if_neg hbc]
          exact List.mem_cons_self b _
      · exact List.mem_cons_of_mem b (List.mem_cons_of_mem c hm2)
    · intro q hq
      show q.1 ≤ (bestCandAux (if b.1 < c.1 then c else b) rest).1
      rcases List.mem_cons.mp hq with rfl | hq2
      · exact le_trans hb1 (h.2 _ (List.mem_cons_self _ _))
      · rcases List.mem_cons.mp hq2 with rfl | hq3
        · exact le_trans hc1 (h.2 _ (List.mem_cons_self _ _))
        · exact h.2 q (List.mem_cons_of_mem _ hq3)

/-- C5: symbol resolution follows the exact precedence of the source — (1) a
parenthesized 3-5 digit code known to `code_to_symbol` wins immediately, with
parenthesized codes checked before free-standing ones; (2) otherwise an exact
punctuation-stripped-description match; (3) otherwise the highest-scoring
entry of the containment / token-overlap scoring loop (`rbcCandidates` holds
the scoring formula); (4) only when no entry scores, the `RBC`/`FIDELITY`
issuer-prefix fallback; an empty normalized description fails immediately. -/
theorem C5_resolution_precedence (dsc : String) (ct cs : AliasMap) :
    (normalize_space dsc = "" → resolve_rbc_symbol dsc ct cs = none)
    ∧ (normalize_space dsc ≠ "" →
      ((∀ s, rbcParenHit (rbcUpperDesc dsc) cs = some s →
          resolve_rbc_symbol dsc ct cs = some s)
      ∧ (rbcParenHit (rbcUpperDesc dsc) cs = none →
          ∀ s, rbcFreeHit (rbcUpperDesc dsc) cs = some s →
            resolve_rbc_symbol dsc ct cs = some s)
      ∧ (rbcParenHit (rbcUpperDesc dsc) cs = none →
          rbcFreeHit (rbcUpperDesc dsc) cs = none →
          ∀ s, lookupStr ct (compact_key (rbcUpperDesc dsc)) = some s →
            resolve_rbc_symbol dsc ct cs = some s)
      ∧ (rbcParenHit (rbcUpperDesc dsc) cs = none →
          rbcFreeHit (rbcUpperDesc dsc) cs = none →
          lookupStr ct (compact_key (rbcUpperDesc dsc)) = none →
          rbcCandidates (compact_key (rbcUpperDesc dsc))
            (token_key_set (normalize_space dsc)) ct ≠ [] →
          ∃ sc sym,
            (sc, sym) ∈ rbcCandidates (compact_key (rbcUpperDesc dsc))
              (token_key_set (normalize_space dsc)) ct
            ∧ resolve_rbc_symbol dsc ct cs = some sym
            ∧ ∀ q ∈ rbcCandidates (compact_key (rbcUpperDesc dsc))
                (token_key_set (normalize_space dsc)) ct, q.1 ≤ sc)
      ∧ (rbcParenHit (rbcUpperDesc dsc) cs = none →
          rbcFreeHit (rbcUpperDesc dsc) cs = none →
          lookupStr ct (compact_key (rbcUpperDesc dsc)) = none →
          rbcCandidates (compact_key (rbcUpperDesc dsc))
            (token_key_set (normalize_space dsc)) ct = [] →
          resolve_rbc_symbol dsc ct cs = issuerFallbackSym (rbcUpperDesc dsc)))) := by
  unfold rbcUpperDesc
  constructor
  · intro hne
    simp only [resolve_rbc_symbol]
    rw [if_pos hne]
  intro hne
  refine ⟨?_, ?_, ?_, ?_, ?_⟩
  · intro s hp
    simp only [resolve_rbc_symbol]
    rw [if_neg hne, hp]
  · intro hp s hfr
    simp only [resolve_rbc_symbol]
    rw [if_neg hne, hp, hfr]
  · intro hp hfr s hlk
    simp only [resolve_rbc_symbol]
    rw [if_neg hne, hp, hfr, hlk]
  · intro hp hfr hlk hcand
    rcases hcs : rbcCandidates (compact_key (upperStr (normalize_space dsc)))
        (token_key_set (normalize_space dsc)) ct with _ | ⟨c, rest⟩
    · exact absurd hcs hcand
    have hres : resolve_rbc_symbol dsc ct cs = some (bestCandAux c rest).2 := by
      simp only [resolve_rbc_symbol]
      rw [if_neg hne, hp, hfr, hlk, hcs]
      rfl
    refine ⟨(bestCandAux c rest).1, (bestCandAux c rest).2, ?_, hres, ?_⟩
    · simpa using (bestCandAux_spec rest c).1
    · intro q hq
      exact (bestCandAux_spec rest c).2 q hq
  · intro hp hfr hlk hcand
    simp only [resolve_rbc_symbol]
    rw [if_neg hne, hp, hfr, hlk, hcand]

/-- Witness for C5: a parenthesized code hit resolves immediately, and a
containment-scored candidate wins when no code or exact match exists. -/
theorem C5_resolution_precedence_witness :
    resolve_rbc_symbol "GLOBAL TECH FUND (1234)" [] [("1234", "GTF")] = some "GTF" :=
  ((C5_resolution_precedence "GLOBAL TECH FUND (1234)" [] [("1234", "GTF")]).2
    (by decide)).1 "GTF" (by decide)

theorem listLe_total : ∀ a b : List Char, listLe a b = true ∨ listLe b a = true := by
  intro a
  induction a with
  | nil => intro b; exact Or.inl rfl
  | cons x xs ih =>
    intro b
    cases b with
    | nil => exact Or.inr rfl
    | cons y ys =>
      by_cases h1 : x.toNat < y.toNat
      · left; simp [listLe, h1]
      · by_cases h2 : y.toNat < x.toNat
        · right; simp [listLe, h2]
        · rcases ih ys with h | h
          · left; simp [listLe, h1, h2, h]
          · right; simp [listLe, h2, h1, h]

theorem listLe_trans :
    ∀ a b c : List Char, listLe a b = true → listLe b c = true → listLe a c = true := by
  intro a
  induction a with
  | nil => intro b c _ _; rfl
  | cons x xs ih =>
    intro b c hab hbc
    cases b with
    | nil => simp [listLe] at hab
    | cons y ys =>
      cases c with
      | nil => simp [listLe] at hbc
      | cons z zs =>
        simp only [listLe] at hab hbc ⊢
        by_cases hxy : x.toNat < y.toNat
        · rw [if_pos hxy] at hab
          by_cases hyz : y.toNat < z.toNat
          · rw [if_pos (by omega : x.toNat < z.toNat)]
          · by_cases hzy : z.toNat < y.toNat
            · rw [if_neg hyz, if_pos hzy] at hbc
              exact absurd hbc (by simp)
            · rw [if_pos (by omega : x.toNat < z.toNat)]
        · by_cases hyx : y.toNat < x.toNat
          · rw [if_neg hxy, if_pos hyx] at hab
            exact absurd hab (by simp)
          · rw [if_neg hxy, if_neg hyx] at hab
            by_cases hyz : y.toNat < z.toNat
            · rw [if_pos (by omega : x.toNat < z.toNat)]
            · by_cases hzy : z.toNat < y.toNat
              · rw [if_neg hyz, if_pos hzy] at hbc
                exact absurd hbc (by simp)
              · rw [if_neg hyz, if_neg hzy] at hbc
                rw [if_neg (by omega : ¬x.toNat < z.toNat),
                  if_neg (by omega : ¬z.toNat < x.toNat)]
                exact ih ys zs hab hbc

theorem mem_insertSorted (x : String) :
    ∀ (l : List String) (a : String), a ∈ insertSorted x l ↔ a = x ∨ a ∈ l := by
  intro l
  induction l with
  | nil => intro a; simp [insertSorted]
  | cons y ys ih =>
    intro a
    unfold insertSorted
    by_cases h : listLe x.data y.data = true
    · rw [if_pos h]
      simp [List.mem_cons]
    · rw [if_neg h]
      simp only [List.mem_cons, ih]
      tauto

theorem pairwise_insertSorted (x : String) :
    ∀ l : List String, l.Pairwise (fun a b => listLe a.data b.data = true) →
      (insertSorted x l).Pairwise (fun a b => listLe a.data b.data = true) := by
  intro l
  induction l with
  | nil => intro _; simp [insertSorted]
  | cons y ys ih =>
    intro hp
    rcases List.pairwise_cons.mp hp with ⟨hy, hys⟩
    unfold insertSorted
    by_cases h : listLe x.data y.data = true
    · rw [if_pos h]
      refine List.pairwise_cons.mpr ⟨?_, hp⟩
      intro b hb
      rcases List.mem_cons.mp hb with rfl | hb2
      · exact h
      · exact listLe_trans _ _ _ h (hy b hb2)
    · rw [if_neg h]
      refine List.pairwise_cons.mpr ⟨?_, ih hys⟩
      intro b hb
      rcases (mem_insertSorted x ys b).mp hb with he | hb2
      · rw [he]
        rcases listLe_total x.data y.data with ht | ht
        · exact absurd ht h
        · exact ht
      · exact hy b hb2

theorem mem_sortStr : ∀ (l : List String) (a : String), a ∈ sortStr l ↔ a ∈ l := by
  intro l
  induction l with
  | nil => intro a; simp [sortStr]
  | cons x xs ih =>
    intro a
    unfold sortStr
    rw [mem_insertSorted]
    simp [ih]

theorem pairwise_sortStr :
    ∀ l : List String, (sortStr l).Pairwise (fun a b => listLe a.data b.data = true) := by
  intro l
  induction l with
  | nil => simp [sortStr]
  | cons x xs ih =>
    unfold sortStr
    exact pairwise_insertSorted x _ ih

theorem takeWhile_dropWhile_append_stop {p : Char → Bool} :
    ∀ (xs : List Char) (y : Char) (zs : List Char),
      (∀ x ∈ xs, p x = true) → p y = false →
      (xs ++ y :: zs).takeWhile p = xs ∧ (xs ++ y :: zs).dropWhile p = y :: zs := by
  intro xs
  induction xs with
  | nil =>
    intro y zs _ hy
    constructor <;> simp [List.takeWhile_cons, List.dropWhile_cons, hy]
  | cons x xs ih =>
    intro y zs hall hy
    have hx := hall x (List.mem_cons_self x xs)
    have hrec := ih y zs (fun a ha => hall a (List.mem_cons_of_mem x ha)) hy
    constructor
    · simp [List.takeWhile_cons, hx, hrec.1]
    · simp [List.dropWhile_cons, hx, hrec.2]

theorem string_eq_of_data {s t : String} (h : s.data = t.data) : s = t := by
  rw [← show String.mk s.data = s from rfl, ← show String.mk t.data = t from rfl, h]

theorem isDupCopy_iff (names : List String) (n : String) :
    isDupCopy names n = true ↔
      ∃ base ds : String, ds ≠ "" ∧ ds.data.all Char.isDigit = true ∧
        n = base ++ "-" ++ ds ++ ".pdf" ∧ (base ++ ".pdf") ∈ names := by
  constructor
  · intro h
    unfold isDupCopy at h
    rcases hdb : dupBase n with _ | b
    · rw [hdb] at h; exact Bool.noConfusion h
    rw [hdb] at h
    unfold dupBase at hdb
    split at hdb
    case isFalse => exact Option.noConfusion hdb
    case isTrue hend =>
      split at hdb
      case isFalse => exact Option.noConfusion hdb
      case isTrue hrun =>
        split at hdb
        case h_2 => exact Option.noConfusion hdb
        case h_1 restR hdrop =>
          obtain ⟨t, ht⟩ : ∃ t : List Char, n.data = t ++ ".pdf".data := by
            rcases List.isSuffixOf_iff_suffix.mp hend with ⟨t, ht⟩
            exact ⟨t, ht.symm⟩
          have hstem : n.data.take (n.data.length - 4) = t := by
            rw [ht, List.length_append]
            rw [show (".pdf".data.length : ℕ) = 4 from rfl]
            rw [show t.length + 4 - 4 = t.length from by omega]
            exact List.take_left t _
          rw [hstem] at hdrop hrun
          have hsplit := List.takeWhile_append_dropWhile Char.isDigit t.reverse
          rw [hdrop] at hsplit
          refine ⟨String.mk restR.reverse, String.mk (t.reverse.takeWhile Char.isDigit).reverse,
            ?_, ?_, ?_, ?_⟩
          · intro he
            have : (t.reverse.takeWhile Char.isDigit).reverse = [] := congrArg String.data he
            rw [List.reverse_eq_nil_iff] at this
            exact hrun this
          · rw [show (String.mk (t.reverse.takeWhile Char.isDigit).reverse).data =
              (t.reverse.takeWhile Char.isDigit).reverse from rfl]
            rw [List.all_reverse]
            exact List.all_eq_true.mpr (fun x hx => List.mem_takeWhile_imp hx)
          · apply string_eq_of_data
            rw [ht]
            rw [String.data_append, String.data_append, String.data_append]
            rw [show (String.mk restR.reverse).data = restR.reverse from rfl]
            rw [show (String.mk (t.reverse.takeWhile Char.isDigit).reverse).data =
              (t.reverse.takeWhile Char.isDigit).reverse from rfl]
            have ht2 : t = restR.reverse ++ '-' :: (t.reverse.takeWhile Char.isDigit).reverse := by
              conv_lhs => rw [← List.reverse_reverse t, ← hsplit]
              simp [List.reverse_append]
            conv_lhs => rw [ht2]
            simp [List.append_assoc, show ("-" : String).data = ['-'] from rfl]
          · injection hdb with hdb'
            rw [hdb']
            exact List.elem_iff.mp h
  · rintro ⟨base, ds, hds, hall, heq, hmem⟩
    have hdata : n.data = (base.data ++ '-' :: ds.data) ++ ".pdf".data := by
      rw [heq, String.data_append, String.data_append, String.data_append]
      simp [show ("-" : String).data = ['-'] from rfl]
    have hds : ds.data ≠ [] := by
      intro he
      exact hds (string_eq_of_data (by rw [he]))
    unfold isDupCopy
    have hdb : dupBase n = some base := by
      unfold dupBase
      rw [if_pos ?hend]
      case hend =>
        unfold strEndsWith
        rw [List.isSuffixOf_iff_suffix]
        exact ⟨base.data ++ '-' :: ds.data, hdata.symm⟩
      have hstem : n.data.take (n.data.length - 4) = base.data ++ '-' :: ds.data := by
        rw [hdata, List.length_append]
        rw [show (".pdf".data.length : ℕ) = 4 from rfl]
        rw [show (base.data ++ '-' :: ds.data).length + 4 - 4
          = (base.data ++ '-' :: ds.data).length from by omega]
        exact List.take_left _ _
      rw [hstem]
      have hrev : (base.data ++ '-' :: ds.data).reverse
          = ds.data.reverse ++ '-' :: base.data.reverse := by
        rw [List.reverse_append]
        simp
      rw [hrev]
      have hallrev : ds.data.reverse.all Char.isDigit = true := by
        rw [List.all_reverse]; exact hall
      have hstop := takeWhile_dropWhile_append_stop (p := Char.isDigit) ds.data.reverse '-'
        base.data.reverse (fun x hx => List.all_eq_true.mp hallrev x hx) (by decide)
      rw [hstop.1, hstop.2]
      rw [if_pos (by simpa using hds)]
      show some (String.mk base.data.reverse.reverse) = some base
      exact congrArg some (string_eq_of_data (by simp))
    rw [hdb]
    exact List.elem_iff.mpr hmem

/-- C10: a file `BASE-<digits>.pdf` is excluded exactly when `BASE.pdf` exists
in the same directory listing; every other `.pdf` name is included; and the
selected names are in sorted (code-point lexicographic) filename order. -/
theorem C10_pdf_selection (names : List String) (n : String) :
    (n ∈ list_rbc_statement_pdfs names ↔
      (n ∈ names ∧ strEndsWith n ".pdf" = true ∧
        ¬∃ base ds : String, ds ≠ "" ∧ ds.data.all Char.isDigit = true ∧
          n = base ++ "-" ++ ds ++ ".pdf" ∧ (base ++ ".pdf") ∈ names))
    ∧ (list_rbc_statement_pdfs names).Pairwise
        (fun a b => listLe a.data b.data = true) := by
  constructor
  · unfold list_rbc_statement_pdfs
    rw [List.mem_filter, mem_sortStr, List.mem_filter]
    constructor
    · rintro ⟨⟨hmem, hpdf⟩, hdup⟩
      refine ⟨hmem, hpdf, ?_⟩
      intro hex
      rw [(isDupCopy_iff names n).mpr hex] at hdup
      exact Bool.noConfusion hdup
    · rintro ⟨hmem, hpdf, hnex⟩
      refine ⟨⟨hmem, hpdf⟩, ?_⟩
      rcases hval : isDupCopy names n with _ | _
      · rfl
      · exact absurd ((isDupCopy_iff names n).mp hval) hnex
  · exact List.Pairwise.filter _ (pairwise_sortStr _)

/-- Witness for C10: `b-1.pdf` is excluded because `b.pdf` exists, while
`c-12.pdf` is included because `c.pdf` does not. -/
theorem C10_pdf_selection_witness :
    "b-1.pdf" ∉ list_rbc_statement_pdfs ["b.pdf", "b-1.pdf", "c-12.pdf"]
    ∧ "c-12.pdf" ∈ list_rbc_statement_pdfs ["b.pdf", "b-1.pdf", "c-12.pdf"] := by
  constructor
  · intro hmem
    obtain ⟨-, -, hno⟩ :=
      (C10_pdf_selection ["b.pdf", "b-1.pdf", "c-12.pdf"] "b-1.pdf").1.mp hmem
    exact hno ⟨"b", "1", by decide, by decide, by decide, by decide⟩
  · refine (C10_pdf_selection ["b.pdf", "b-1.pdf", "c-12.pdf"] "c-12.pdf").1.mpr
      ⟨by decide, by decide, ?_⟩
    rintro ⟨base, ds, hds, hall, heq, hmem⟩
    have hdup : isDupCopy ["b.pdf", "b-1.pdf", "c-12.pdf"] "c-12.pdf" = true :=
      (isDupCopy_iff _ _).mpr ⟨base, ds, hds, hall, heq, hmem⟩
    rw [show isDupCopy ["b.pdf", "b-1.pdf", "c-12.pdf"] "c-12.pdf" = false from by decide]
      at hdup
    exact Bool.noConfusion hdup

end NetWorth
